import Mathlib

/-!
Shallow embedding of the GPU Ops Platform policy engine
(`src/python/starlark_engine/engine.py`).

Modelling conventions:
* Python `float` fields (`memory_gb`, `temperature_c`, `power_w`, pool
  thresholds, scores) are modelled as `ℚ`.  Every IEEE double is a rational,
  and double comparisons agree with the comparisons of the represented
  rationals, so the predicates (`matches_pool`, `meets_requirements`) are
  modelled exactly.  The score arithmetic only ever adds the constants
  1.0, 0.5, 0.3, 0.2, -0.3 in one fixed order; for each of the twelve
  possible flag combinations the resulting double is the double nearest the
  exact decimal value, so score equality and ordering in the Python sort
  coincide with the rational model.
* Python's `t in s` substring test on strings is `occursCL` below,
  case-sensitive by construction.
* `dict` is modelled as an insertion-ordered association list with unique
  keys: assigning to an existing key keeps its original position
  (`insertKeyed`), matching CPython 3.7+ semantics; `dict.values()` is
  `map Prod.snd`.
* The requirement mapping passed to `meets_requirements` is modelled as a
  record with one optional field per key the engine reads (`min_memory`,
  `max_temp`, `tags`) plus `extra`, the remaining (unrecognized) entries of
  the dictionary, which the engine never inspects.
* Mutating methods are modelled state-passing: `register_pool` returns the
  updated `GPUOpsModule`; `evaluate_allocation` and `get_recommended_gpus`
  return their result paired with the (unchanged) module state, mirroring
  that the Python code only reads `self.gpu_ops`.  Device snapshots are
  immutable values; "the engine does not mutate devices" is reflected by the
  returned devices being elements of the input list.
-/

/-- Python `list.isPrefixOf`-style check on character lists: `leadsCL t s`
holds when `t` is an initial segment of `s`. -/
def leadsCL : List Char → List Char → Bool
  | [], _ => true
  | _ :: _, [] => false
  | a :: as, b :: bs => a = b && leadsCL as bs

/-- Python's substring containment `t in s` on character lists: `t` occurs
contiguously somewhere in `s` (the empty list occurs in everything). -/
def occursCL (t : List Char) : List Char → Bool
  | [] => t.isEmpty
  | b :: bs => leadsCL t (b :: bs) || occursCL t bs

/-- Python's case-sensitive substring test `t in s` on strings. -/
def occursIn (t s : String) : Bool :=
  occursCL t.data s.data

/-- Free-form parameter values carried by uninterpreted policy records
(`Dict[str, Any]` payloads the engine never interprets). -/
inductive PValue where
  | str : String → PValue
  | num : ℚ → PValue
  | flag : Bool → PValue
deriving DecidableEq

/-- An uninterpreted keyword-record (`Dict[str, Any]`) as stored in pools. -/
abbrev ParamDict := List (String × PValue)

/-- Represents a single GPU device (dataclass `GPUInfo`). -/
structure GPUInfo where
  id : Int
  name : String
  uuid : String
  memory_gb : ℚ
  temperature_c : ℚ
  power_w : ℚ
  online : Bool := true
  registered : Bool := false
  pool : String := ""
  tags : List String := []
deriving DecidableEq

/-- Defines a GPU pool configuration (dataclass `GPUPool`). -/
structure GPUPool where
  name : String
  gpu_types : List String := []
  min_memory_gb : ℚ := 0
  max_temp_c : ℚ := 100
  power_policy : String := "adaptive"
  health_threshold : ℚ := 0.9
  opt_strategies : List ParamDict := []
  health_checks : List ParamDict := []
deriving DecidableEq

/-- Defines a scheduling rule (dataclass `ScheduleRule`). -/
structure ScheduleRule where
  type : String
  metric : Option String := none
  strategy : Option String := none
  values : Option (List String) := none
  allow : Option Bool := none
deriving DecidableEq

/-- Defines a set of scheduling rules (dataclass `ScheduleRuleset`). -/
structure ScheduleRuleset where
  name : String
  rules : List ScheduleRule := []
deriving DecidableEq

/-- Represents a complete policy document (dataclass `Policy`). -/
structure Policy where
  name : String
  version : String := "1.0"
  pools : List GPUPool := []
  schedules : List ScheduleRuleset := []
deriving DecidableEq

/-- Assignment `d[k] = v` on an insertion-ordered association list with
unique keys: an existing key keeps its original position and gets the new
value; a fresh key is appended at the end (CPython dict semantics). -/
def insertKeyed {α : Type} : List (String × α) → String → α → List (String × α)
  | [], k, v => [(k, v)]
  | (k', v') :: rest, k, v =>
      if k' = k then (k, v) :: rest else (k', v') :: insertKeyed rest k v

/-- Lookup `d.get(k)` on an association list: first (hence, with unique
keys, only) binding of `k`. -/
def lookupK {α : Type} : List (String × α) → String → Option α
  | [], _ => none
  | (k', v) :: rest, k => if k' = k then some v else lookupK rest k

/-- Provides GPU operations for Starlark policies (class `GPUOpsModule`):
the registry of pools and schedule rulesets, each a name-keyed ordered
dictionary. -/
structure GPUOpsModule where
  pools : List (String × GPUPool) := []
  schedules : List (String × ScheduleRuleset) := []
deriving DecidableEq

/-- The freshly constructed module: both dictionaries empty. -/
def GPUOpsModule.init : GPUOpsModule := {}

/-- Register a GPU pool: `self.pools[pool.name] = pool`. -/
def register_pool (m : GPUOpsModule) (p : GPUPool) : GPUOpsModule :=
  { m with pools := insertKeyed m.pools p.name p }

/-- Register a schedule ruleset: `self.schedules[schedule.name] = schedule`. -/
def register_schedule (m : GPUOpsModule) (s : ScheduleRuleset) : GPUOpsModule :=
  { m with schedules := insertKeyed m.schedules s.name s }

/-- Get a pool by name: `self.pools.get(name)`. -/
def get_pool (m : GPUOpsModule) (name : String) : Option GPUPool :=
  lookupK m.pools name

/-- Get all pools: `list(self.pools.values())`, in insertion order. -/
def get_all_pools (m : GPUOpsModule) : List GPUPool :=
  m.pools.map Prod.snd

/-- Get a schedule by name: `self.schedules.get(name)`. -/
def get_schedule (m : GPUOpsModule) (name : String) : Option ScheduleRuleset :=
  lookupK m.schedules name

/-- Check if a GPU matches pool criteria (`PolicyEngine._matches_pool`).
The first guard is the source's two-step name check: if `gpu_types` is
non-empty and the device name is not an exact member, at least one listed
type must occur as a substring of the name. -/
def matches_pool (gpu : GPUInfo) (pool : GPUPool) : Bool :=
  if !pool.gpu_types.isEmpty && !pool.gpu_types.contains gpu.name
      && !(pool.gpu_types.any fun t => occursIn t gpu.name) then false
  else if gpu.memory_gb < pool.min_memory_gb then false
  else if gpu.temperature_c > pool.max_temp_c then false
  else if gpu.pool ≠ "" && gpu.pool ≠ pool.name then false
  else true

/-- A caller-supplied requirement mapping (`Dict[str, Any]`): one optional
field per key the engine recognizes, plus the unrecognized remainder of the
dictionary (keys other than the three recognized ones, with their values),
which the engine never reads. -/
structure Requirements where
  min_memory : Option ℚ := none
  max_temp : Option ℚ := none
  tags : Option (List String) := none
  extra : List (String × PValue) := []
deriving DecidableEq

/-- Check if a GPU meets specific requirements
(`PolicyEngine._meets_requirements`): each present recognized key is tested
in turn; `tags` uses set-containment of the required tags in the device
tags. -/
def meets_requirements (gpu : GPUInfo) (req : Requirements) : Bool :=
  if req.min_memory.any fun q => gpu.memory_gb < q then false
  else if req.max_temp.any fun q => gpu.temperature_c > q then false
  else if req.tags.any fun ts => !(ts.all fun t => gpu.tags.contains t) then false
  else true

/-- Loop body of `PolicyEngine.evaluate_allocation`: scan the pool list in
order, returning `true` at the first pool whose criteria match and for which
the requirements are met (Python's short-circuit `and`), else `false`. -/
def evalPools (gpu : GPUInfo) (req : Requirements) : List GPUPool → Bool
  | [] => false
  | p :: rest =>
      if matches_pool gpu p && meets_requirements gpu req then true
      else evalPools gpu req rest

/-- Evaluate if a GPU meets allocation requirements
(`PolicyEngine.evaluate_allocation`); returns the result together with the
engine registry state, which the method only reads. -/
def evaluate_allocation (m : GPUOpsModule) (gpu : GPUInfo) (req : Requirements) :
    Bool × GPUOpsModule :=
  (evalPools gpu req (get_all_pools m), m)

/-- Calculate a suitability score for a GPU (`PolicyEngine._score_gpu`). -/
def score_gpu (gpu : GPUInfo) : ℚ :=
  let score : ℚ := 1.0
  let score := if gpu.online then score + 0.5 else score
  let score := if gpu.memory_gb ≥ 16 then score + 0.3 else score
  let score :=
    if gpu.temperature_c < 60 then score + 0.2
    else if gpu.temperature_c > 80 then score - 0.3
    else score
  score

/-- Descending-score comparison used to model
`recommended.sort(key=lambda x: x[1], reverse=True)`: a stable sort under
this relation keeps equal-scored entries in input order, exactly as
CPython's stable sort with `reverse=True` does. -/
def scoreDesc (a b : GPUInfo × ℚ) : Bool :=
  decide (b.2 ≤ a.2)

/-- Get list of recommended GPUs based on policy
(`PolicyEngine.get_recommended_gpus`): filter by `evaluate_allocation`, pair
each survivor with its score, stably sort by descending score, drop the
scores.  Returned with the registry state, which the method only reads. -/
def get_recommended_gpus (m : GPUOpsModule) (gpus : List GPUInfo)
    (req : Requirements) : List GPUInfo × GPUOpsModule :=
  let recommended :=
    (gpus.filter fun g => (evaluate_allocation m g req).1).map
      fun g => (g, score_gpu g)
  let sorted := recommended.mergeSort scoreDesc
  (sorted.map Prod.fst, m)

/-- The leading-segment check is reflexive: every list starts with itself. -/
theorem leadsCL_self (l : List Char) : leadsCL l l = true := by
  induction l with
  | nil => rfl
  | cons a as ih => simp [leadsCL, ih]

/-- Every string occurs in itself as a substring (Python `s in s`). -/
theorem occursCL_self (l : List Char) : occursCL l l = true := by
  cases l with
  | nil => rfl
  | cons a as => simp [occursCL, leadsCL_self]

/-- String version of `occursCL_self`. -/
theorem occursIn_self (s : String) : occursIn s s = true :=
  occursCL_self s.data

/-- Claim C4: the score of a device equals 1.0, plus 0.5 when online, plus
0.3 when its memory is at least 16 GB, plus 0.2 when its temperature is
below 60, minus 0.3 when its temperature is above 80; the cool bonus and the
hot penalty are mutually exclusive and the band 60–80 inclusive contributes
nothing.  The second conjunct checks end-to-end scenario C of the spec: an
online device at 85 °C with 20 GB scores 1.5.  The score is a function of
the device snapshot alone, as `score_gpu`'s type shows: neither a pool nor a
requirement set is consulted. -/
theorem score_gpu_formula (gpu : GPUInfo) :
    score_gpu gpu =
      1.0 + (if gpu.online then (0.5 : ℚ) else 0)
        + (if gpu.memory_gb ≥ 16 then (0.3 : ℚ) else 0)
        + (if gpu.temperature_c < 60 then (0.2 : ℚ)
           else if gpu.temperature_c > 80 then -0.3 else 0) ∧
    score_gpu { id := 0, name := "g", uuid := "u", memory_gb := 20,
                temperature_c := 85, power_w := 0, online := true } = 1.5 := by
  constructor
  · unfold score_gpu
    split_ifs <;> norm_num
  · norm_num [score_gpu]

/-- Claim C10: every score lies between 0.7 and 2.0; the lower bound is
attained exactly for an offline device with less than 16 GB of memory and
temperature above 80, the upper bound exactly for an online device with at
least 16 GB and temperature below 60. -/
theorem score_gpu_bounds (gpu : GPUInfo) :
    (0.7 : ℚ) ≤ score_gpu gpu ∧ score_gpu gpu ≤ 2 ∧
    (score_gpu gpu = 0.7 ↔
      gpu.online = false ∧ gpu.memory_gb < 16 ∧ gpu.temperature_c > 80) ∧
    (score_gpu gpu = 2 ↔
      gpu.online = true ∧ 16 ≤ gpu.memory_gb ∧ gpu.temperature_c < 60) := by
  unfold score_gpu
  split_ifs <;> norm_num <;> simp_all <;> linarith

/-- A device value built from malformed input: its memory capacity is
negative.  The dataclass constructor accepts it unchanged. -/
def malformedGPU : GPUInfo :=
  { id := 0, name := "bad", uuid := "u", memory_gb := -5,
    temperature_c := 50, power_w := 0 }

/-- A rule value built from malformed input: its kind is none of
`priority`, `balance`, `distribution`, `preemption`.  The dataclass
constructor accepts it unchanged. -/
def malformedRule : ScheduleRule :=
  { type := "totally_unknown_kind" }

/-- Claim C6 counterexample: construction from malformed input does not
fail.  A device with negative memory capacity and a rule with an unknown
kind are both constructed as ordinary values — the offending fields are
stored verbatim — and evaluation (here scoring) processes the malformed
device without any `InvalidPolicyData` condition arising; no such condition
exists anywhere in the engine. -/
theorem construction_unvalidated_cex :
    malformedGPU.memory_gb = -5 ∧ malformedGPU.memory_gb < 0 ∧
    score_gpu malformedGPU = 1.7 ∧
    malformedRule.type = "totally_unknown_kind" ∧
    malformedRule.type ∉ ["priority", "balance", "distribution", "preemption"] := by
  refine ⟨rfl, by norm_num [malformedGPU], by norm_num [score_gpu, malformedGPU],
    rfl, by decide⟩

/-- Claim C6 as amended: constructing a data-model value from malformed
input succeeds — the constructors of `GPUInfo` and `ScheduleRule` perform no
validation, store the offending field values verbatim (any rational as
memory capacity, any string as rule kind), and evaluation operates directly
on such values: scoring a device with arbitrary (possibly negative) memory
is total and follows the ordinary score formula. -/
theorem construction_unvalidated (q : ℚ) (s : String) :
    (GPUInfo.mk 0 "d" "u" q 50 0 true false "" []).memory_gb = q ∧
    (ScheduleRule.mk s none none none none).type = s ∧
    score_gpu (GPUInfo.mk 0 "d" "u" q 50 0 true false "" []) =
      (if q ≥ 16 then 2 else 1.7) := by
  refine ⟨rfl, rfl, ?_⟩
  unfold score_gpu
  dsimp only
  split_ifs <;> norm_num at *

/-- Claim C5: `meets_requirements` holds exactly when each recognized key
that is present is satisfied — `min_memory` bounds the device memory from
below, `max_temp` bounds its temperature from above, and `tags` must be a
subset of the device tags; the unrecognized entries of the mapping never
affect the result, and the empty mapping accepts every device. -/
theorem meets_requirements_spec (gpu : GPUInfo) (req : Requirements) :
    (meets_requirements gpu req = true ↔
      (∀ q, req.min_memory = some q → q ≤ gpu.memory_gb) ∧
      (∀ q, req.max_temp = some q → gpu.temperature_c ≤ q) ∧
      (∀ ts, req.tags = some ts → ∀ t ∈ ts, t ∈ gpu.tags)) ∧
    (∀ e, meets_requirements gpu { req with extra := e } =
      meets_requirements gpu req) ∧
    meets_requirements gpu {} = true := by
  refine ⟨?_, fun e => rfl, rfl⟩
  obtain ⟨mm, mt, tg, ex⟩ := req
  cases mm <;> cases mt <;> cases tg <;>
    simp [meets_requirements, not_lt]

/-- Full characterization of `matches_pool`: the four criteria of the pool
admission check, with the source's exact-membership shortcut absorbed by the
substring clause (every string occurs in itself). -/
theorem matches_pool_iff (gpu : GPUInfo) (pool : GPUPool) :
    matches_pool gpu pool = true ↔
      ((pool.gpu_types ≠ [] → ∃ t ∈ pool.gpu_types, occursIn t gpu.name = true) ∧
       pool.min_memory_gb ≤ gpu.memory_gb ∧
       gpu.temperature_c ≤ pool.max_temp_c ∧
       (gpu.pool ≠ "" → gpu.pool = pool.name)) := by
  unfold matches_pool
  split_ifs with h1 h2 h3 h4
  · simp only [Bool.and_eq_true, Bool.not_eq_true', List.isEmpty_eq_false,
      List.any_eq_false] at h1
    obtain ⟨⟨hne, -⟩, hall⟩ := h1
    simp only [false_iff, not_and]
    intro hname
    obtain ⟨t, ht, hocc⟩ := hname hne
    exact absurd hocc (hall t ht)
  · simp only [false_iff, not_and]
    intro _ hmem
    exact absurd hmem (not_le.mpr h2)
  · simp only [false_iff, not_and]
    intro _ _ htemp
    exact absurd htemp (not_le.mpr h3)
  · simp only [Bool.and_eq_true, decide_eq_true_eq] at h4
    simp only [false_iff, not_and]
    intro _ _ _ hbind
    exact absurd (hbind h4.1) h4.2
  · simp only [true_iff]
    have h1' : pool.gpu_types = [] ∨ gpu.name ∈ pool.gpu_types
        ∨ (pool.gpu_types.any fun t => occursIn t gpu.name) = true := by
      by_contra hcon
      push_neg at hcon
      obtain ⟨hA, hB, hC⟩ := hcon
      refine h1 ?_
      simp only [Bool.and_eq_true, Bool.not_eq_true', List.isEmpty_eq_false,
        List.elem_eq_mem, decide_eq_false_iff_not]
      exact ⟨⟨hA, hB⟩, Bool.not_eq_true _ ▸ hC⟩
    refine ⟨?_, not_lt.mp h2, not_lt.mp h3, ?_⟩
    · intro hne
      rcases h1' with hA | hB | hC
      · exact absurd hA hne
      · exact ⟨gpu.name, hB, occursIn_self gpu.name⟩
      · simpa using hC
    · intro hne
      by_contra hneq
      exact h4 (by simp [hne, hneq])

/-- Claim C3: `matches_pool` holds exactly when (1) a non-empty
accepted-name list has at least one entry occurring as a case-sensitive
substring of the device name, (2) the device memory is at least the pool's
floor (equality passes), (3) the device temperature is at most the pool's
ceiling (equality passes), and (4) a non-empty assigned pool name equals the
pool's name. -/
theorem matches_pool_spec (gpu : GPUInfo) (pool : GPUPool) :
    matches_pool gpu pool = true ↔
      ((pool.gpu_types ≠ [] → ∃ t ∈ pool.gpu_types, occursIn t gpu.name = true) ∧
       pool.min_memory_gb ≤ gpu.memory_gb ∧
       gpu.temperature_c ≤ pool.max_temp_c ∧
       (gpu.pool ≠ "" → gpu.pool = pool.name)) :=
  matches_pool_iff gpu pool

/-- Scanning the registered pools in order returns `true` exactly when some
pool in the list matches the device and the requirements are met. -/
theorem evalPools_eq_true_iff (gpu : GPUInfo) (req : Requirements)
    (ps : List GPUPool) :
    evalPools gpu req ps = true ↔
      ∃ p ∈ ps, matches_pool gpu p = true ∧ meets_requirements gpu req = true := by
  induction ps with
  | nil => simp [evalPools]
  | cons p rest ih =>
    simp only [evalPools]
    split_ifs with h
    · rw [Bool.and_eq_true] at h
      exact iff_of_true rfl ⟨p, List.mem_cons_self p rest, h.1, h.2⟩
    · rw [Bool.and_eq_true] at h
      rw [ih]
      constructor
      · rintro ⟨p', hp', hm⟩
        exact ⟨p', List.mem_cons_of_mem _ hp', hm⟩
      · rintro ⟨p', hp', hm1, hm2⟩
        rcases List.mem_cons.mp hp' with rfl | hmem
        · exact absurd ⟨hm1, hm2⟩ h
        · exact ⟨p', hmem, hm1, hm2⟩

/-- Claim C2: `evaluate_allocation` returns true exactly when some
registered pool matches the device while the requirements are met, and in
particular returns false whenever no pool is registered. -/
theorem evaluate_allocation_spec (m : GPUOpsModule) (gpu : GPUInfo)
    (req : Requirements) :
    ((evaluate_allocation m gpu req).1 = true ↔
      ∃ p ∈ get_all_pools m, matches_pool gpu p = true ∧
        meets_requirements gpu req = true) ∧
    (m.pools = [] → (evaluate_allocation m gpu req).1 = false) := by
  constructor
  · exact evalPools_eq_true_iff gpu req (get_all_pools m)
  · intro h
    simp [evaluate_allocation, get_all_pools, h, evalPools]

/-- Claim C2 witness: on a concrete registry with one matching pool the
evaluation returns true, and on the empty registry it returns false. -/
theorem evaluate_allocation_spec_witness :
    (evaluate_allocation (register_pool GPUOpsModule.init { name := "high-mem" })
      { id := 0, name := "X", uuid := "u", memory_gb := 24,
        temperature_c := 35, power_w := 0 } {}).1 = true ∧
    (evaluate_allocation GPUOpsModule.init
      { id := 0, name := "X", uuid := "u", memory_gb := 24,
        temperature_c := 35, power_w := 0 } {}).1 = false := by
  constructor
  · exact (evaluate_allocation_spec (register_pool GPUOpsModule.init
      { name := "high-mem" })
      { id := 0, name := "X", uuid := "u", memory_gb := 24,
        temperature_c := 35, power_w := 0 } {}).1.mpr
      ⟨{ name := "high-mem" }, List.mem_singleton.mpr rfl, by decide, by decide⟩
  · exact (evaluate_allocation_spec GPUOpsModule.init
      { id := 0, name := "X", uuid := "u", memory_gb := 24,
        temperature_c := 35, power_w := 0 } {}).2 rfl

/-- Claim C8 counterexample: a device named `A` against a pool accepting
only `B`-named devices but requiring 10 GB while the device has 5 GB.  No
accepted substring occurs in the name, and indeed the pool does not match;
but after adding the matching substring `A` to the accepted list the pool
still does not match, because the memory floor fails — adding a matching
substring does not by itself flip `matches_pool` to true. -/
theorem matches_pool_name_monotone_cex :
    (∀ u ∈ (["B"] : List String), occursIn u "A" = false) ∧
    occursIn "A" "A" = true ∧
    matches_pool
      { id := 0, name := "A", uuid := "u", memory_gb := 5,
        temperature_c := 50, power_w := 0 }
      { name := "p", gpu_types := ["B"], min_memory_gb := 10 } = false ∧
    matches_pool
      { id := 0, name := "A", uuid := "u", memory_gb := 5,
        temperature_c := 50, power_w := 0 }
      { name := "p", gpu_types := ["B"] ++ ["A"], min_memory_gb := 10 } = false := by
  decide

/-- Claim C8 as amended: for a pool with a non-empty accepted-name list
none of whose entries occurs in the device name, `matches_pool` is false;
and adding to the list a substring that does occur in the device name flips
`matches_pool` to true provided the remaining criteria — memory floor,
temperature ceiling and pool binding — hold. -/
theorem matches_pool_name_monotone (gpu : GPUInfo) (pool : GPUPool) (t : String) :
    ((pool.gpu_types ≠ [] →
      (∀ u ∈ pool.gpu_types, occursIn u gpu.name = false) →
      matches_pool gpu pool = false)) ∧
    (occursIn t gpu.name = true →
      pool.min_memory_gb ≤ gpu.memory_gb →
      gpu.temperature_c ≤ pool.max_temp_c →
      (gpu.pool = "" ∨ gpu.pool = pool.name) →
      matches_pool gpu { pool with gpu_types := pool.gpu_types ++ [t] } = true) := by
  constructor
  · intro hne hall
    cases hmb : matches_pool gpu pool with
    | false => rfl
    | true =>
      obtain ⟨hname, -, -, -⟩ := (matches_pool_iff gpu pool).mp hmb
      obtain ⟨u, hu, hocc⟩ := hname hne
      exact absurd hocc (by simp [hall u hu])
  · intro hocc hmem htemp hbind
    refine (matches_pool_iff gpu _).mpr ⟨?_, hmem, htemp, ?_⟩
    · intro _
      exact ⟨t, List.mem_append_right _ (List.mem_singleton.mpr rfl), hocc⟩
    · intro hne
      rcases hbind with h | h
      · exact absurd h hne
      · exact h

/-- Claim C8 witness: concrete instantiation of both amended directions — a
device named `X` with ample memory and low temperature fails a pool that
accepts only `A`-named devices, and matches once `X` is added to the
accepted list. -/
theorem matches_pool_name_monotone_witness :
    matches_pool
      { id := 0, name := "X", uuid := "u", memory_gb := 24,
        temperature_c := 35, power_w := 0 }
      { name := "hm", gpu_types := ["A"] } = false ∧
    matches_pool
      { id := 0, name := "X", uuid := "u", memory_gb := 24,
        temperature_c := 35, power_w := 0 }
      { name := "hm", gpu_types := ["A"] ++ ["X"] } = true := by
  constructor
  · exact (matches_pool_name_monotone
      { id := 0, name := "X", uuid := "u", memory_gb := 24,
        temperature_c := 35, power_w := 0 }
      { name := "hm", gpu_types := ["A"] } "X").1 (by decide) (by decide)
  · exact (matches_pool_name_monotone
      { id := 0, name := "X", uuid := "u", memory_gb := 24,
        temperature_c := 35, power_w := 0 }
      { name := "hm", gpu_types := ["A"] } "X").2 (by decide) (by decide)
      (by decide) (Or.inl rfl)

/-- Looking up the key just assigned returns the new value. -/
theorem lookupK_insertKeyed_self {α : Type} (l : List (String × α)) (k : String)
    (v : α) : lookupK (insertKeyed l k v) k = some v := by
  induction l with
  | nil => simp [insertKeyed, lookupK]
  | cons hd rest ih =>
    obtain ⟨k', v'⟩ := hd
    by_cases h : k' = k
    · simp [insertKeyed, h, lookupK]
    · simp [insertKeyed, h, lookupK, ih]

/-- Assigning one key leaves lookups of every other key unchanged. -/
theorem lookupK_insertKeyed_ne {α : Type} (l : List (String × α)) (k : String)
    (v : α) (n : String) (h : k ≠ n) :
    lookupK (insertKeyed l k v) n = lookupK l n := by
  induction l with
  | nil => simp [insertKeyed, lookupK, h]
  | cons hd rest ih =>
    obtain ⟨k', v'⟩ := hd
    by_cases hk : k' = k
    · subst hk
      simp [insertKeyed, lookupK, h]
    · simp [insertKeyed, hk, lookupK, ih]

/-- Assignment keeps the key sequence unchanged when the key is present and
appends it at the end otherwise. -/
theorem keys_insertKeyed {α : Type} (l : List (String × α)) (k : String) (v : α) :
    (insertKeyed l k v).map Prod.fst =
      if k ∈ l.map Prod.fst then l.map Prod.fst else l.map Prod.fst ++ [k] := by
  induction l with
  | nil => simp [insertKeyed]
  | cons hd rest ih =>
    obtain ⟨k', v'⟩ := hd
    by_cases h : k' = k
    · simp [insertKeyed, h]
    · have hne : ¬k = k' := fun hh => h hh.symm
      simp only [insertKeyed, if_neg h, List.map_cons, List.mem_cons, hne,
        false_or, ih]
      split_ifs <;> simp

/-- Assignment preserves distinctness of the keys. -/
theorem nodup_keys_insertKeyed {α : Type} (l : List (String × α)) (k : String)
    (v : α) (h : (l.map Prod.fst).Nodup) :
    ((insertKeyed l k v).map Prod.fst).Nodup := by
  rw [keys_insertKeyed]
  split_ifs with hmem
  · exact h
  · simp [List.nodup_append, h, hmem]

/-- Register a whole sequence of pools, in order. -/
def registerPools (m : GPUOpsModule) (ps : List GPUPool) : GPUOpsModule :=
  ps.foldl register_pool m

/-- Register a whole sequence of schedule rulesets, in order. -/
def registerSchedules (m : GPUOpsModule) (ss : List ScheduleRuleset) : GPUOpsModule :=
  ss.foldl register_schedule m

/-- Registering pools only touches the pools dictionary, by repeated
keyed assignment. -/
theorem registerPools_eq (m : GPUOpsModule) (ps : List GPUPool) :
    (registerPools m ps).pools =
      ps.foldl (fun d p => insertKeyed d p.name p) m.pools ∧
    (registerPools m ps).schedules = m.schedules := by
  induction ps generalizing m with
  | nil => exact ⟨rfl, rfl⟩
  | cons p rest ih =>
    exact ⟨(ih (register_pool m p)).1, (ih (register_pool m p)).2⟩

/-- Registering rulesets only touches the schedules dictionary. -/
theorem registerSchedules_eq (m : GPUOpsModule) (ss : List ScheduleRuleset) :
    (registerSchedules m ss).schedules =
      ss.foldl (fun d s => insertKeyed d s.name s) m.schedules ∧
    (registerSchedules m ss).pools = m.pools := by
  induction ss generalizing m with
  | nil => exact ⟨rfl, rfl⟩
  | cons s rest ih =>
    exact ⟨(ih (register_schedule m s)).1, (ih (register_schedule m s)).2⟩

/-- After a sequence of keyed assignments, lookup returns the most recently
assigned value for the key, falling back to the original dictionary. -/
theorem lookupK_foldl_insert {α : Type} (f : α → String) (xs : List α)
    (d : List (String × α)) (n : String) :
    lookupK (xs.foldl (fun d x => insertKeyed d (f x) x) d) n =
      (xs.reverse.find? fun x => decide (f x = n)).or (lookupK d n) := by
  induction xs generalizing d with
  | nil => simp
  | cons x xs ih =>
    rw [List.foldl_cons, ih, List.reverse_cons, List.find?_append]
    cases hf : xs.reverse.find? (fun x => decide (f x = n)) with
    | some y => rfl
    | none =>
      simp only [Option.none_or]
      by_cases hx : f x = n
      · rw [← hx, lookupK_insertKeyed_self]
        simp [List.find?, hx]
      · rw [lookupK_insertKeyed_ne _ _ _ _ hx]
        simp [List.find?, hx]

/-- The key sequence after a fold of keyed assignments: each fresh name is
appended at its first occurrence; later assignments to the same name keep
its original position. -/
theorem keys_foldl_insert {α : Type} (f : α → String) (xs : List α)
    (d : List (String × α)) :
    (xs.foldl (fun d x => insertKeyed d (f x) x) d).map Prod.fst =
      (xs.map f).foldl
        (fun acc n => if n ∈ acc then acc else acc ++ [n]) (d.map Prod.fst) := by
  induction xs generalizing d with
  | nil => rfl
  | cons x xs ih =>
    rw [List.foldl_cons, ih, keys_insertKeyed, List.map_cons, List.foldl_cons]

/-- Distinctness of keys is preserved by any fold of keyed assignments. -/
theorem nodup_keys_foldl_insert {α : Type} (f : α → String) (xs : List α)
    (d : List (String × α)) (h : (d.map Prod.fst).Nodup) :
    ((xs.foldl (fun d x => insertKeyed d (f x) x) d).map Prod.fst).Nodup := by
  induction xs generalizing d with
  | nil => exact h
  | cons x xs ih => exact ih _ (nodup_keys_insertKeyed _ _ _ h)

/-- The sequence of first occurrences of the names in a list, in order. -/
def dedupFirst (l : List String) : List String :=
  l.foldl (fun acc n => if n ∈ acc then acc else acc ++ [n]) []

/-- Claim C7: after any sequence of `register_pool` calls on a fresh module,
the registry's pool names are distinct; `get_pool` returns the most recently
registered pool of the requested name (re-registration replaces, without
error) and returns the absent value for a never-registered name; the stored
snapshot order is registration order with each name keeping the position of
its first registration (a replacing pool occupies the replaced pool's
position); and `get_schedule` after a sequence of `register_schedule` calls
likewise returns the most recently registered ruleset of the name. -/
theorem registry_spec (ps : List GPUPool) (ss : List ScheduleRuleset)
    (n : String) :
    ((registerPools GPUOpsModule.init ps).pools.map Prod.fst).Nodup ∧
    (get_pool (registerPools GPUOpsModule.init ps) n =
      ps.reverse.find? fun p => decide (p.name = n)) ∧
    ((∀ p ∈ ps, p.name ≠ n) →
      get_pool (registerPools GPUOpsModule.init ps) n = none) ∧
    ((registerPools GPUOpsModule.init ps).pools.map Prod.fst =
      dedupFirst (ps.map GPUPool.name)) ∧
    (get_schedule (registerSchedules GPUOpsModule.init ss) n =
      ss.reverse.find? fun s => decide (s.name = n)) := by
  have hpools := (registerPools_eq GPUOpsModule.init ps).1
  have hscheds := (registerSchedules_eq GPUOpsModule.init ss).1
  have hlook : get_pool (registerPools GPUOpsModule.init ps) n =
      ps.reverse.find? fun p => decide (p.name = n) := by
    rw [get_pool, hpools, lookupK_foldl_insert GPUPool.name ps GPUOpsModule.init.pools n]
    simp [lookupK]
  refine ⟨?_, hlook, ?_, ?_, ?_⟩
  · rw [hpools]
    exact nodup_keys_foldl_insert GPUPool.name ps GPUOpsModule.init.pools List.Pairwise.nil
  · intro h
    rw [hlook]
    rw [List.find?_eq_none]
    intro p hp
    simp only [decide_eq_true_eq]
    exact h p (List.mem_reverse.mp hp)
  · rw [hpools]
    exact keys_foldl_insert GPUPool.name ps GPUOpsModule.init.pools
  · rw [get_schedule, hscheds, lookupK_foldl_insert ScheduleRuleset.name ss GPUOpsModule.init.schedules n]
    simp [lookupK]

/-- Claim C7 witness: registering pools named `a`, `b`, `a` in order yields
distinct keys `[a, b]` in first-registration order, `get_pool "a"` returns
the second pool named `a`, and a never-registered name yields the absent
value. -/
theorem registry_spec_witness :
    get_pool (registerPools GPUOpsModule.init
      [{ name := "a", min_memory_gb := 1 }, { name := "b" },
       { name := "a", min_memory_gb := 7 }]) "a" =
      some { name := "a", min_memory_gb := 7 } ∧
    get_pool (registerPools GPUOpsModule.init
      [{ name := "a", min_memory_gb := 1 }, { name := "b" },
       { name := "a", min_memory_gb := 7 }]) "zzz" = none ∧
    (registerPools GPUOpsModule.init
      [{ name := "a", min_memory_gb := 1 }, { name := "b" },
       { name := "a", min_memory_gb := 7 }]).pools.map Prod.fst = ["a", "b"] := by
  refine ⟨?_, ?_, ?_⟩
  · exact (registry_spec
      [{ name := "a", min_memory_gb := 1 }, { name := "b" },
       { name := "a", min_memory_gb := 7 }] [] "a").2.1.trans rfl
  · exact (registry_spec
      [{ name := "a", min_memory_gb := 1 }, { name := "b" },
       { name := "a", min_memory_gb := 7 }] [] "zzz").2.2.1 (by decide)
  · exact (registry_spec
      [{ name := "a", min_memory_gb := 1 }, { name := "b" },
       { name := "a", min_memory_gb := 7 }] [] "zzz").2.2.2.1.trans rfl

/-- Claim C9: evaluation and recommendation have no side effects — both
return the registry state they were given, unchanged, and every device in
the recommendation output is one of the (immutable) input snapshots. -/
theorem engine_no_side_effects (m : GPUOpsModule) (gpu : GPUInfo)
    (gpus : List GPUInfo) (req : Requirements) :
    (evaluate_allocation m gpu req).2 = m ∧
    (get_recommended_gpus m gpus req).2 = m ∧
    ∀ g ∈ (get_recommended_gpus m gpus req).1, g ∈ gpus := by
  refine ⟨rfl, rfl, ?_⟩
  intro g hg
  simp only [get_recommended_gpus] at hg
  rw [List.mem_map] at hg
  obtain ⟨x, hx, rfl⟩ := hg
  rw [List.mem_mergeSort, List.mem_map] at hx
  obtain ⟨g', hg', rfl⟩ := hx
  exact (List.mem_filter.mp hg').1

/-- The descending-score comparison is transitive. -/
theorem scoreDesc_trans (a b c : GPUInfo × ℚ) (h1 : scoreDesc a b = true)
    (h2 : scoreDesc b c = true) : scoreDesc a c = true := by
  simp only [scoreDesc, decide_eq_true_eq] at h1 h2 ⊢
  exact le_trans h2 h1

/-- The descending-score comparison is total. -/
theorem scoreDesc_total (a b : GPUInfo × ℚ) :
    (scoreDesc a b || scoreDesc b a) = true := by
  simp only [scoreDesc, Bool.or_eq_true, decide_eq_true_eq]
  exact le_total b.2 a.2

/-- Claim C1: the recommendation is exactly the devices of the input that
pass `evaluate_allocation` (as a permutation), ordered by non-increasing
score, and for each score value the equal-scored devices appear in the same
relative order as in the input list (stability of the descending sort). -/
theorem get_recommended_gpus_spec (m : GPUOpsModule) (gpus : List GPUInfo)
    (req : Requirements) :
    ((get_recommended_gpus m gpus req).1).Perm
      (gpus.filter fun g => (evaluate_allocation m g req).1) ∧
    ((get_recommended_gpus m gpus req).1).Pairwise
      (fun a b => score_gpu b ≤ score_gpu a) ∧
    (∀ s : ℚ,
      ((get_recommended_gpus m gpus req).1).filter
        (fun g => decide (score_gpu g = s)) =
      (gpus.filter fun g => (evaluate_allocation m g req).1).filter
        (fun g => decide (score_gpu g = s))) := by
  have hres : (get_recommended_gpus m gpus req).1 =
      (((gpus.filter fun g => (evaluate_allocation m g req).1).map
        (fun g => (g, score_gpu g))).mergeSort scoreDesc).map Prod.fst := rfl
  have hmem_pairs : ∀ x ∈ ((gpus.filter fun g => (evaluate_allocation m g req).1).map
      (fun g => (g, score_gpu g))), x.2 = score_gpu x.1 := by
    intro x hx
    rw [List.mem_map] at hx
    obtain ⟨g, -, rfl⟩ := hx
    rfl
  have hperm := List.mergeSort_perm
    ((gpus.filter fun g => (evaluate_allocation m g req).1).map
      (fun g => (g, score_gpu g))) scoreDesc
  refine ⟨?_, ?_, ?_⟩
  · rw [hres]
    have h1 := hperm.map Prod.fst
    rw [List.map_map] at h1
    simpa [Function.comp_def] using h1
  · rw [hres, List.pairwise_map]
    have hsorted := List.sorted_mergeSort scoreDesc_trans scoreDesc_total
      ((gpus.filter fun g => (evaluate_allocation m g req).1).map
        (fun g => (g, score_gpu g)))
    refine hsorted.imp_of_mem ?_
    intro a b ha hb hr
    have ha2 := hmem_pairs a (List.mem_mergeSort.mp ha)
    have hb2 := hmem_pairs b (List.mem_mergeSort.mp hb)
    have hle : b.2 ≤ a.2 := by
      simpa [scoreDesc] using hr
    rw [ha2, hb2] at hle
    exact hle
  · intro s
    have hall : ∀ x ∈ ((gpus.filter fun g => (evaluate_allocation m g req).1).map
        (fun g => (g, score_gpu g))).filter (fun x => decide (score_gpu x.1 = s)),
        x.2 = s := by
      intro x hx
      have hxp := List.mem_filter.mp hx
      have h2 := hmem_pairs x hxp.1
      have h3 := of_decide_eq_true hxp.2
      rw [h2, h3]
    have hcpair : (((gpus.filter fun g => (evaluate_allocation m g req).1).map
        (fun g => (g, score_gpu g))).filter
          (fun x => decide (score_gpu x.1 = s))).Pairwise
        (fun a b => scoreDesc a b = true) := by
      refine List.pairwise_of_forall_mem_list ?_
      intro a ha b hb
      simp [scoreDesc, hall a ha, hall b hb]
    have hc_sub := List.sublist_mergeSort scoreDesc_trans scoreDesc_total
      hcpair (List.filter_sublist _)
    have hfilter_eq : (((gpus.filter fun g => (evaluate_allocation m g req).1).map
        (fun g => (g, score_gpu g))).mergeSort scoreDesc).filter
          (fun x => decide (score_gpu x.1 = s)) =
        ((gpus.filter fun g => (evaluate_allocation m g req).1).map
          (fun g => (g, score_gpu g))).filter
            (fun x => decide (score_gpu x.1 = s)) := by
      have hf := hc_sub.filter (fun x => decide (score_gpu x.1 = s))
      rw [List.filter_filter] at hf
      have hsame : (fun a : GPUInfo × ℚ => decide (score_gpu a.1 = s) &&
          decide (score_gpu a.1 = s)) = (fun x => decide (score_gpu x.1 = s)) := by
        funext a
        rw [Bool.and_self]
      rw [hsame] at hf
      have hlen := (hperm.filter (fun x => decide (score_gpu x.1 = s))).length_eq
      exact (hf.eq_of_length hlen.symm).symm
    rw [hres, List.filter_map]
    simp only [Function.comp_def]
    rw [hfilter_eq, List.filter_map, List.map_map]
    simp [Function.comp_def]
